import Mathlib

/-!
Verification of the approximate-equality comparison library.

The development embeds the library's three comparison strategies —
absolute-difference, relative-difference and ULPs — over a bit-level model
of IEEE-754 binary floating-point values, parameterised by the exponent
width `E` and the fraction width `M` (f32 is `E = 8, M = 23`, f64 is
`E = 11, M = 52`).  A float is its sign bit, biased exponent field and
fraction field; arithmetic is exact rational arithmetic followed by
round-to-nearest, ties to even.  Integer comparisons are embedded over `ℕ`
(unsigned) and two's-complement wrapping arithmetic over `ℤ` (signed,
release-mode semantics).  The ordered-map derivation is embedded over
association lists, and the parameter objects as structures with functional
updates.
-/

/-- Model of an IEEE-754 binary floating point datum with `E` exponent bits
and `M` fraction bits: the sign bit and the raw exponent and fraction
fields.  Valid encodings have `exp < 2 ^ E` and `frac < 2 ^ M`. -/
structure Fp (E M : ℕ) where
  sign : Bool
  exp : ℕ
  frac : ℕ
deriving DecidableEq

namespace Fp

variable {E M : ℕ}

/-- The exponent bias, `2 ^ (E - 1) - 1` (127 for f32, 1023 for f64). -/
def bias (E : ℕ) : ℤ := 2 ^ (E - 1) - 1

/-- Test for a NaN encoding: maximal exponent field and nonzero fraction. -/
def isNan (x : Fp E M) : Bool :=
  decide (x.exp = 2 ^ E - 1) && decide (x.frac ≠ 0)

/-- Test for an infinity encoding: maximal exponent field and zero fraction
(mirrors `f32::is_infinite` / `f64::is_infinite`). -/
def isInfinite (x : Fp E M) : Bool :=
  decide (x.exp = 2 ^ E - 1) && decide (x.frac = 0)

/-- Test for a (signed) zero encoding. -/
def isZero (x : Fp E M) : Bool :=
  decide (x.exp = 0) && decide (x.frac = 0)

/-- Test for a finite value (neither NaN nor infinite), mirroring
`f32::is_finite` / `f64::is_finite`. -/
def isFinite (x : Fp E M) : Bool :=
  decide (x.exp ≠ 2 ^ E - 1)

/-- The exact rational value of a finite encoding: subnormals use the
minimal exponent `1 - bias`, normals carry the implicit leading bit.
(The value returned on a NaN/infinity encoding is unused.) -/
def valQ (x : Fp E M) : ℚ :=
  (if x.sign then (-1 : ℚ) else 1) *
    (if x.exp = 0 then
      (x.frac : ℚ) * (2 : ℚ) ^ (1 - bias E - (M : ℤ))
    else
      ((2 ^ M + x.frac : ℕ) : ℚ) * (2 : ℚ) ^ ((x.exp : ℤ) - bias E - (M : ℤ)))

/-- The raw bit pattern of an encoding, as a natural number (mirrors
`f32::to_bits` / `f64::to_bits`). -/
def toBits (x : Fp E M) : ℕ :=
  (if x.sign then 2 ^ (E + M) else 0) + x.exp * 2 ^ M + x.frac

/-- Negation: flip the sign bit. -/
def fneg (x : Fp E M) : Fp E M := ⟨!x.sign, x.exp, x.frac⟩

/-- Absolute value: clear the sign bit (mirrors `f32::abs`). -/
def fabs (x : Fp E M) : Fp E M := ⟨false, x.exp, x.frac⟩

/-- A signed zero encoding. -/
def fZero (E M : ℕ) (s : Bool) : Fp E M := ⟨s, 0, 0⟩

/-- A signed infinity encoding. -/
def fInf (E M : ℕ) (s : Bool) : Fp E M := ⟨s, 2 ^ E - 1, 0⟩

/-- The quiet NaN produced by invalid operations. -/
def qNaN (E M : ℕ) : Fp E M := ⟨false, 2 ^ E - 1, 2 ^ M - 1⟩

/-- The encoding of `1.0` (biased exponent equals the bias). -/
def fOne (E M : ℕ) : Fp E M := ⟨false, 2 ^ (E - 1) - 1, 0⟩

/-- The encoding of `-1.0`. -/
def fNegOne (E M : ℕ) : Fp E M := ⟨true, 2 ^ (E - 1) - 1, 0⟩

/-- IEEE equality (`PartialEq` on `f32`/`f64`): false on NaN, sign-aware on
infinities, value equality on finite encodings (so `0.0 == -0.0`). -/
def feq (x y : Fp E M) : Bool :=
  if isNan x || isNan y then false
  else if isInfinite x && isInfinite y then x.sign == y.sign
  else if isInfinite x || isInfinite y then false
  else decide (valQ x = valQ y)

/-- IEEE `<=` (`PartialOrd` on `f32`/`f64`): false on NaN, otherwise the
order of the extended real values. -/
def fle (x y : Fp E M) : Bool :=
  if isNan x || isNan y then false
  else if isInfinite x then (x.sign || (isInfinite y && !y.sign))
  else if isInfinite y then !y.sign
  else decide (valQ x ≤ valQ y)

/-- IEEE `<` (`PartialOrd` on `f32`/`f64`). -/
def flt (x y : Fp E M) : Bool :=
  if isNan x || isNan y then false
  else if isInfinite x then (x.sign && !(isInfinite y && y.sign))
  else if isInfinite y then !y.sign
  else decide (valQ x < valQ y)

/-- Rust `signum`: NaN for NaN, otherwise `±1.0` by the sign bit (so
`(0.0).signum() = 1.0` and `(-0.0).signum() = -1.0`). -/
def signum (x : Fp E M) : Fp E M :=
  if isNan x then x else if x.sign then fNegOne E M else fOne E M

/-- Round a nonnegative rational to a natural number, to nearest with ties
to even. -/
def rneNat (q : ℚ) : ℕ :=
  if q - ((⌊q⌋).toNat : ℚ) < 1 / 2 then (⌊q⌋).toNat
  else if (1 : ℚ) / 2 < q - ((⌊q⌋).toNat : ℚ) then (⌊q⌋).toNat + 1
  else if (⌊q⌋).toNat % 2 = 0 then (⌊q⌋).toNat else (⌊q⌋).toNat + 1

/-- Round a positive rational to the nearest nonnegative encoding
(round-to-nearest, ties to even), overflowing to `+∞`.  The magnitude is
scaled into the binade determined by `Int.log 2 q` (clamped below at the
subnormal binade), rounded to an integer significand, and re-encoded;
a significand that rounds up to `2 ^ (M + 1)` moves up one binade. -/
def roundPos (E M : ℕ) (q : ℚ) : Fp E M :=
  if rneNat (q * (2 : ℚ) ^ ((M : ℤ) - max (Int.log 2 q) (1 - bias E))) = 0 then
    fZero E M false
  else if rneNat (q * (2 : ℚ) ^ ((M : ℤ) - max (Int.log 2 q) (1 - bias E)))
      = 2 ^ (M + 1) then
    if (2 : ℤ) ^ E - 1 ≤ max (Int.log 2 q) (1 - bias E) + 1 + bias E then
      fInf E M false
    else
      ⟨false, (max (Int.log 2 q) (1 - bias E) + 1 + bias E).toNat, 0⟩
  else if rneNat (q * (2 : ℚ) ^ ((M : ℤ) - max (Int.log 2 q) (1 - bias E)))
      < 2 ^ M then
    ⟨false, 0, rneNat (q * (2 : ℚ) ^ ((M : ℤ) - max (Int.log 2 q) (1 - bias E)))⟩
  else
    if (2 : ℤ) ^ E - 1 ≤ max (Int.log 2 q) (1 - bias E) + bias E then
      fInf E M false
    else
      ⟨false, (max (Int.log 2 q) (1 - bias E) + bias E).toNat,
        rneNat (q * (2 : ℚ) ^ ((M : ℤ) - max (Int.log 2 q) (1 - bias E))) - 2 ^ M⟩

/-- IEEE subtraction `x - y`: NaN operands and same-signed infinities give
NaN, infinities dominate, and finite operands subtract exactly and round.
An exact zero difference is `+0` except for `(-0) - (+0) = -0`. -/
def fsub (x y : Fp E M) : Fp E M :=
  if isNan x || isNan y then qNaN E M
  else if isInfinite x && isInfinite y then
    if x.sign == y.sign then qNaN E M else fInf E M x.sign
  else if isInfinite x then fInf E M x.sign
  else if isInfinite y then fInf E M (!y.sign)
  else if valQ x - valQ y = 0 then
    fZero E M (isZero x && isZero y && x.sign && !y.sign)
  else if valQ x - valQ y < 0 then fneg (roundPos E M (-(valQ x - valQ y)))
  else roundPos E M (valQ x - valQ y)

/-- IEEE multiplication `x * y`: NaN operands and `∞ * 0` give NaN,
infinities dominate with the product sign, and finite operands multiply
exactly and round with the product sign. -/
def fmul (x y : Fp E M) : Fp E M :=
  if isNan x || isNan y then qNaN E M
  else if isInfinite x || isInfinite y then
    if isZero x || isZero y then qNaN E M else fInf E M (x.sign != y.sign)
  else if valQ x * valQ y = 0 then fZero E M (x.sign != y.sign)
  else if valQ x * valQ y < 0 then fneg (roundPos E M (-(valQ x * valQ y)))
  else roundPos E M (valQ x * valQ y)

/-- The larger of two (non-NaN) floats; used to state the specification's
`max(|a|, |b|)`. -/
def fmax (x y : Fp E M) : Fp E M := if fle x y then y else x

/-- The absolute-difference comparison on floats, from
`impl_signed_abs_diff_eq`: `$T::abs(self - other) <= epsilon`. -/
def abs_diff_eq (x y eps : Fp E M) : Bool :=
  fle (fabs (fsub x y)) eps

/-- The relative comparison on floats, from `impl_relative_eq` in
`relative_eq.rs`: identical values first, then remaining infinities fail,
then the absolute-difference short-circuit, then the magnitude-normalised
comparison against the larger operand. -/
def relative_eq (x y eps maxRel : Fp E M) : Bool :=
  if feq x y then true
  else if isInfinite x || isInfinite y then false
  else if fle (fabs (fsub x y)) eps then true
  else
    fle (fabs (fsub x y))
      (fmul (if flt (fabs x) (fabs y) then fabs y else fabs x) maxRel)

/-- The ULPs comparison on floats, from `impl_ulps_eq` in `ulps_eq.rs`:
the absolute-difference short-circuit, then the `signum` sign check, then
the unsigned distance of bit patterns (larger minus smaller) against the
ULP budget. -/
def ulps_eq (x y eps : Fp E M) (maxUlps : ℕ) : Bool :=
  if abs_diff_eq x y eps then true
  else if !(feq (signum x) (signum y)) then false
  else if toBits x ≤ toBits y then decide (toBits y - toBits x ≤ maxUlps)
  else decide (toBits x - toBits y ≤ maxUlps)

/-- Formalises the claim's "the operands carry the same sign (the
signed-zero boundary counts as a sign difference)": both operands are
non-NaN (a NaN carries no sign) and their sign bits agree. -/
def sameSign (x y : Fp E M) : Bool :=
  !isNan x && !isNan y && (x.sign == y.sign)

end Fp

/-- The absolute-difference comparison on unsigned primitives, from
`impl_unsigned_abs_diff_eq`: `(if self > other { self - other } else
{ other - self }) <= epsilon`.  Unsigned values of every width embed
into `ℕ`; the subtraction never underflows. -/
def unsigned_abs_diff_eq (a b eps : ℕ) : Bool :=
  decide ((if b < a then a - b else b - a) ≤ eps)

/-- Reduce an integer into the two's-complement range
`[-2 ^ (w - 1), 2 ^ (w - 1))` of a `w`-bit signed primitive (Rust
release-mode wrapping semantics). -/
def wrap (w : ℕ) (x : ℤ) : ℤ :=
  (x + 2 ^ (w - 1)) % 2 ^ w - 2 ^ (w - 1)

/-- Rust `abs` on a `w`-bit signed primitive with wrapping semantics
(`iN::MIN.abs()` wraps back to `iN::MIN`). -/
def wrappingAbs (w : ℕ) (x : ℤ) : ℤ := wrap w |x|

/-- The absolute-difference comparison on signed integer primitives, from
`impl_signed_abs_diff_eq`: `$T::abs(self - other) <= epsilon`, with the
subtraction and absolute value wrapping at width `w`. -/
def signed_abs_diff_eq (w : ℕ) (a b eps : ℤ) : Bool :=
  decide (wrappingAbs w (wrap w (a - b)) ≤ eps)

/-- The `Relative` parameter object from `lib.rs`: an absolute tolerance
and a relative threshold, generic over the tolerance type. -/
structure Relative (ε : Type) where
  epsilon : ε
  max_relative : ε

/-- The `Relative::epsilon` builder method: `Relative { epsilon, ..self }`. -/
def Relative.setEpsilon {ε : Type} (r : Relative ε) (e : ε) : Relative ε :=
  { r with epsilon := e }

/-- The `Relative::max_relative` builder method:
`Relative { max_relative, ..self }`. -/
def Relative.setMaxRelative {ε : Type} (r : Relative ε) (m : ε) : Relative ε :=
  { r with max_relative := m }

/-- The `Ulps` parameter object from `lib.rs`: an absolute tolerance and a
maximum ULP count. -/
structure Ulps (ε : Type) where
  epsilon : ε
  max_ulps : ℕ

/-- The `Ulps::epsilon` builder method: `Ulps { epsilon, ..self }`. -/
def Ulps.setEpsilon {ε : Type} (u : Ulps ε) (e : ε) : Ulps ε :=
  { u with epsilon := e }

/-- The `Ulps::max_ulps` builder method: `Ulps { max_ulps, ..self }`. -/
def Ulps.setMaxUlps {ε : Type} (u : Ulps ε) (n : ℕ) : Ulps ε :=
  { u with max_ulps := n }

/-- Key lookup in an association list, modelling `IndexMap::get`: the value
stored at the first entry whose key matches. -/
def lookupKey {K V : Type} [DecidableEq K] (k : K) : List (K × V) → Option V
  | [] => none
  | p :: t => if p.1 = k then some p.2 else lookupKey k t

/-- The `RelativeEq` implementation for `IndexMap`, over an insertion-order
association list: `self.len() == other.len() && self.iter().all(|(key,
value)| other.get(key).map_or(false, |v| V1::relative_eq(value, v,
epsilon.clone(), max_relative.clone())))`.  The element comparison `rel`
abstracts the value type's `relative_eq`. -/
def relative_eq_map {K V ε : Type} [DecidableEq K]
    (rel : V → V → ε → ε → Bool) (eps maxRel : ε)
    (m1 m2 : List (K × V)) : Bool :=
  m1.length == m2.length &&
    m1.all fun p =>
      (Option.map (fun v => rel p.2 v eps maxRel) (lookupKey p.1 m2)).getD false

/-! ### Basic facts about the float model -/

namespace Fp

variable {E M : ℕ}

theorem isNan_fabs (x : Fp E M) : isNan (fabs x) = isNan x := rfl

theorem isInfinite_fabs (x : Fp E M) : isInfinite (fabs x) = isInfinite x := rfl

theorem sign_fabs (x : Fp E M) : (fabs x).sign = false := rfl

theorem fabs_fneg (x : Fp E M) : fabs (fneg x) = fabs x := rfl

theorem isNan_qNaN (hM : 1 ≤ M) : isNan (qNaN E M) = true := by
  have h2 : 2 ≤ 2 ^ M := by
    calc (2 : ℕ) = 2 ^ 1 := rfl
    _ ≤ 2 ^ M := Nat.pow_le_pow_right (by omega) hM
  have h : 2 ^ M - 1 ≠ 0 := by omega
  simp [isNan, qNaN, h]

theorem fle_eq_false_of_nan_left {x y : Fp E M} (h : isNan x = true) :
    fle x y = false := by
  simp [fle, h]

theorem fle_eq_false_of_nan_right {x y : Fp E M} (h : isNan y = true) :
    fle x y = false := by
  simp [fle, h]

theorem fsub_eq_qNaN_left {x y : Fp E M} (h : isNan x = true) :
    fsub x y = qNaN E M := by
  simp [fsub, h]

theorem fsub_eq_qNaN_right {x y : Fp E M} (h : isNan y = true) :
    fsub x y = qNaN E M := by
  simp [fsub, h]

theorem not_nan_of_isFinite {x : Fp E M} (h : isFinite x = true) :
    isNan x = false := by
  simp only [isFinite, decide_eq_true_eq] at h
  simp [isNan, h]

theorem not_inf_of_isFinite {x : Fp E M} (h : isFinite x = true) :
    isInfinite x = false := by
  simp only [isFinite, decide_eq_true_eq] at h
  simp [isInfinite, h]

theorem isFinite_of_flags {x : Fp E M} (hn : isNan x = false)
    (hi : isInfinite x = false) : isFinite x = true := by
  by_cases h : x.exp = 2 ^ E - 1
  · by_cases hf : x.frac = 0
    · exact absurd hi (by simp [isInfinite, h, hf])
    · exact absurd hn (by simp [isNan, h, hf])
  · simp [isFinite, h]

theorem isFinite_eq_false_of_nan {x : Fp E M} (h : isNan x = true) :
    isFinite x = false := by
  simp only [isNan, Bool.and_eq_true, decide_eq_true_eq] at h
  simp [isFinite, h.1]

theorem isFinite_eq_false_of_inf {x : Fp E M} (h : isInfinite x = true) :
    isFinite x = false := by
  simp only [isInfinite, Bool.and_eq_true, decide_eq_true_eq] at h
  simp [isFinite, h.1]

theorem isInfinite_eq_false_of_nan {x : Fp E M} (h : isNan x = true) :
    isInfinite x = false := by
  simp only [isNan, Bool.and_eq_true, decide_eq_true_eq] at h
  simp [isInfinite, h.2]

theorem nan_abs_sub_not_le_left {x y e : Fp E M} (hM : 1 ≤ M)
    (h : isNan x = true) : fle (fabs (fsub x y)) e = false := by
  rw [fsub_eq_qNaN_left h]
  exact fle_eq_false_of_nan_left (by rw [isNan_fabs]; exact isNan_qNaN hM)

theorem nan_abs_sub_not_le_right {x y e : Fp E M} (hM : 1 ≤ M)
    (h : isNan y = true) : fle (fabs (fsub x y)) e = false := by
  rw [fsub_eq_qNaN_right h]
  exact fle_eq_false_of_nan_left (by rw [isNan_fabs]; exact isNan_qNaN hM)

theorem valQ_eq_zero_iff {x : Fp E M} : valQ x = 0 ↔ isZero x = true := by
  have hs : (if x.sign then (-1 : ℚ) else 1) ≠ 0 := by
    cases x.sign <;> norm_num
  constructor
  · intro h
    unfold valQ at h
    rcases mul_eq_zero.mp h with h1 | h1
    · exact absurd h1 hs
    · by_cases he : x.exp = 0
      · rw [if_pos he] at h1
        rcases mul_eq_zero.mp h1 with h2 | h2
        · have hf : x.frac = 0 := by exact_mod_cast h2
          simp [isZero, he, hf]
        · exact absurd h2 (zpow_ne_zero _ (by norm_num))
      · rw [if_neg he] at h1
        rcases mul_eq_zero.mp h1 with h2 | h2
        · have hc : (2 ^ M + x.frac : ℕ) = 0 := by exact_mod_cast h2
          have hp : 0 < 2 ^ M := pow_pos (by norm_num) M
          omega
        · exact absurd h2 (zpow_ne_zero _ (by norm_num))
  · intro h
    simp only [isZero, Bool.and_eq_true, decide_eq_true_eq] at h
    unfold valQ
    rw [if_pos h.1, h.2]
    simp

theorem fmul_congr_left {a b c : Fp E M} (hna : isNan a = false)
    (hnb : isNan b = false) (hia : isInfinite a = false)
    (hib : isInfinite b = false) (hs : a.sign = b.sign)
    (hv : valQ a = valQ b) : fmul a c = fmul b c := by
  have hz : isZero a = isZero b := by
    rw [Bool.eq_iff_iff, ← valQ_eq_zero_iff, ← valQ_eq_zero_iff, hv]
  unfold fmul
  rw [hna, hnb, hia, hib, hs, hv, hz]

theorem fabs_fsub_comm {x y : Fp E M} (hnx : isNan x = false)
    (hny : isNan y = false) (hix : isInfinite x = false)
    (hiy : isInfinite y = false) :
    fabs (fsub x y) = fabs (fsub y x) := by
  unfold fsub
  rw [hnx, hny, hix, hiy]
  simp only [Bool.or_self, Bool.false_and, Bool.false_or, Bool.or_false,
    Bool.false_eq_true, if_false]
  rcases lt_trichotomy (valQ x) (valQ y) with h | h | h
  · rw [if_neg (sub_ne_zero.mpr (ne_of_lt h)), if_pos (sub_neg.mpr h),
      if_neg (sub_ne_zero.mpr (ne_of_gt h)),
      if_neg (not_lt.mpr (le_of_lt (sub_pos.mpr h))), fabs_fneg, neg_sub]
  · rw [if_pos (by rw [h, sub_self]), if_pos (by rw [h, sub_self])]
    rfl
  · rw [if_neg (sub_ne_zero.mpr (ne_of_gt h)),
      if_neg (not_lt.mpr (le_of_lt (sub_pos.mpr h))),
      if_neg (sub_ne_zero.mpr (ne_of_lt h)), if_pos (sub_neg.mpr h),
      fabs_fneg, neg_sub]

theorem fsub_self_of_finite {a : Fp E M} (ha : isFinite a = true) :
    fsub a a = fZero E M false := by
  have hn := not_nan_of_isFinite ha
  have hi := not_inf_of_isFinite ha
  unfold fsub
  rw [hn, hi]
  simp only [Bool.or_self, Bool.false_and, Bool.false_or, Bool.false_eq_true,
    if_false]
  rw [if_pos (sub_self _)]
  cases hz : isZero a <;> cases hsg : a.sign <;> simp [hz, hsg]

end Fp

/-! ### Facts about `signum` and the unit encodings -/

namespace Fp

variable {E M : ℕ}

theorem isNan_fOne : isNan (fOne E M) = false := by
  simp [isNan, fOne]

theorem isNan_fNegOne : isNan (fNegOne E M) = false := by
  simp [isNan, fNegOne]

theorem one_exp_ne_max (hE : 2 ≤ E) : (2 : ℕ) ^ (E - 1) - 1 ≠ 2 ^ E - 1 := by
  have h1 : 2 ^ (E - 1) < 2 ^ E := Nat.pow_lt_pow_right (by norm_num) (by omega)
  have h2 : 1 ≤ 2 ^ (E - 1) := Nat.one_le_two_pow
  omega

theorem isInfinite_fOne (hE : 2 ≤ E) : isInfinite (fOne E M) = false := by
  simp [isInfinite, fOne, one_exp_ne_max hE]

theorem isInfinite_fNegOne (hE : 2 ≤ E) : isInfinite (fNegOne E M) = false := by
  simp [isInfinite, fNegOne, one_exp_ne_max hE]

theorem valQ_fOne_pos (hE : 2 ≤ E) : 0 < valQ (fOne E M) := by
  have he : (2 : ℕ) ^ (E - 1) - 1 ≠ 0 := by
    have h4 : 2 ≤ 2 ^ (E - 1) := by
      calc (2 : ℕ) = 2 ^ 1 := rfl
      _ ≤ 2 ^ (E - 1) := Nat.pow_le_pow_right (by omega) (by omega)
    omega
  unfold valQ fOne
  simp only [if_neg he, Bool.false_eq_true, if_false, one_mul]
  positivity

theorem valQ_fNegOne : valQ (fNegOne E M) = -valQ (fOne E M) := by
  unfold valQ fNegOne fOne
  simp only [if_true, Bool.false_eq_true, if_false, neg_mul, one_mul]

theorem feq_signum_eq_sameSign (hE : 2 ≤ E) (x y : Fp E M) :
    feq (signum x) (signum y) = sameSign x y := by
  unfold signum sameSign
  cases hnx : isNan x with
  | true =>
    simp only [hnx, if_true, Bool.not_true, Bool.false_and]
    simp [feq, hnx]
  | false =>
    cases hny : isNan y with
    | true =>
      simp only [hny, if_true, Bool.not_true, Bool.and_false, Bool.false_and,
        Bool.and_assoc]
      have h1 : feq (if x.sign then fNegOne E M else fOne E M) y = false := by
        cases x.sign <;> simp [feq, hny]
      simp only [hnx, Bool.false_eq_true, if_false, h1, Bool.not_false,
        Bool.true_and, Bool.and_false]
    | false =>
      have hpos := valQ_fOne_pos (M := M) hE
      have hne : valQ (fOne E M) ≠ valQ (fNegOne E M) := by
        rw [valQ_fNegOne]
        intro hc
        nlinarith
      have hne' : valQ (fNegOne E M) ≠ valQ (fOne E M) := fun hc => hne hc.symm
      simp only [hnx, hny, Bool.false_eq_true, if_false, Bool.not_false,
        Bool.true_and]
      cases hsx : x.sign <;> cases hsy : y.sign <;>
        simp [feq, isNan_fOne, isNan_fNegOne, isInfinite_fOne hE,
          isInfinite_fNegOne hE, hne, hne']

end Fp

namespace Fp

variable {E M : ℕ}

theorem largest_fmul_eq {x y m : Fp E M} (hnx : isNan x = false)
    (hny : isNan y = false) (hix : isInfinite x = false)
    (hiy : isInfinite y = false) :
    fmul (if flt (fabs x) (fabs y) then fabs y else fabs x) m
      = fmul (fmax (fabs x) (fabs y)) m := by
  have h1 : flt (fabs x) (fabs y) = decide (valQ (fabs x) < valQ (fabs y)) := by
    simp only [flt, isNan_fabs, isInfinite_fabs, hnx, hny, hix, hiy,
      Bool.or_self, Bool.false_eq_true, if_false]
  have h2 : fle (fabs x) (fabs y) = decide (valQ (fabs x) ≤ valQ (fabs y)) := by
    simp only [fle, isNan_fabs, isInfinite_fabs, hnx, hny, hix, hiy,
      Bool.or_self, Bool.false_eq_true, if_false]
  unfold fmax
  rw [h1, h2]
  rcases lt_trichotomy (valQ (fabs x)) (valQ (fabs y)) with hv | hv | hv
  · rw [decide_eq_true hv, decide_eq_true (le_of_lt hv)]
  · rw [decide_eq_false (by rw [hv]; exact lt_irrefl _),
      decide_eq_true (le_of_eq hv)]
    simp only [Bool.false_eq_true, if_false, if_true]
    exact fmul_congr_left (by rw [isNan_fabs]; exact hnx)
      (by rw [isNan_fabs]; exact hny)
      (by rw [isInfinite_fabs]; exact hix)
      (by rw [isInfinite_fabs]; exact hiy) rfl hv
  · rw [decide_eq_false (lt_asymm hv), decide_eq_false (not_le.mpr hv)]

end Fp

open Fp

/-- C1: for every pair of f32/f64 operands and every `epsilon` and
`max_relative`, `relative_eq` returns true iff (a) the operands are
identical under native floating-point equality, or (b) both are finite and
their absolute difference is at most `epsilon`, or (c) both are finite and
their absolute difference is at most `max(|a|, |b|) * max_relative`; in
particular, if either operand is infinite and they are not identical, the
result is false. -/
theorem relative_eq_iff_spec {E M : ℕ} (hM : 1 ≤ M) (x y e m : Fp E M) :
    (relative_eq x y e m =
      (feq x y ||
        (isFinite x && isFinite y && fle (fabs (fsub x y)) e) ||
        (isFinite x && isFinite y &&
          fle (fabs (fsub x y)) (fmul (fmax (fabs x) (fabs y)) m)))) ∧
    ((isInfinite x || isInfinite y) = true → feq x y = false →
      relative_eq x y e m = false) := by
  have finfalse : (isInfinite x || isInfinite y) = true →
      (isFinite x && isFinite y) = false := by
    intro h
    rcases Bool.or_eq_true_iff.mp h with h1 | h1
    · rw [isFinite_eq_false_of_inf h1, Bool.false_and]
    · rw [isFinite_eq_false_of_inf h1, Bool.and_false]
  have main : relative_eq x y e m =
      (feq x y ||
        (isFinite x && isFinite y && fle (fabs (fsub x y)) e) ||
        (isFinite x && isFinite y &&
          fle (fabs (fsub x y)) (fmul (fmax (fabs x) (fabs y)) m))) := by
    unfold relative_eq
    cases hq : feq x y with
    | true => simp
    | false =>
      simp only [Bool.false_or, Bool.false_eq_true, if_false]
      cases hinf : (isInfinite x || isInfinite y) with
      | true => simp [finfalse hinf]
      | false =>
        have hix : isInfinite x = false := by
          cases h : isInfinite x with
          | false => rfl
          | true => rw [h, Bool.true_or] at hinf; exact absurd hinf (by simp)
        have hiy : isInfinite y = false := by
          cases h : isInfinite y with
          | false => rfl
          | true => rw [h, Bool.or_true] at hinf; exact absurd hinf (by simp)
        simp only [Bool.false_eq_true, if_false]
        cases hde : fle (fabs (fsub x y)) e with
        | true =>
          have hnx : isNan x = false := by
            cases hc : isNan x with
            | false => rfl
            | true =>
              rw [nan_abs_sub_not_le_left hM hc] at hde
              exact absurd hde (by simp)
          have hny : isNan y = false := by
            cases hc : isNan y with
            | false => rfl
            | true =>
              rw [nan_abs_sub_not_le_right hM hc] at hde
              exact absurd hde (by simp)
          simp [isFinite_of_flags hnx hix, isFinite_of_flags hny hiy]
        | false =>
          cases hnx : isNan x with
          | true =>
            rw [nan_abs_sub_not_le_left hM hnx, isFinite_eq_false_of_nan hnx]
            simp
          | false =>
            cases hny : isNan y with
            | true =>
              rw [nan_abs_sub_not_le_right hM hny, isFinite_eq_false_of_nan hny]
              simp
            | false =>
              have hfx := isFinite_of_flags hnx hix
              have hfy := isFinite_of_flags hny hiy
              rw [largest_fmul_eq hnx hny hix hiy]
              simp [hfx, hfy, hde]
  refine ⟨main, ?_⟩
  intro hinf hq
  rw [main, hq, finfalse hinf]
  simp

/-- Witness for C1 at the f32 format, comparing `1.0` with `+∞` at zero
tolerances. -/
theorem relative_eq_iff_spec_witness :
    1 ≤ 23 ∧
    ((relative_eq (fOne 8 23) (fInf 8 23 false) (fZero 8 23 false)
        (fZero 8 23 false) =
      (feq (fOne 8 23) (fInf 8 23 false) ||
        (isFinite (fOne 8 23) && isFinite (fInf 8 23 false) &&
          fle (fabs (fsub (fOne 8 23) (fInf 8 23 false))) (fZero 8 23 false)) ||
        (isFinite (fOne 8 23) && isFinite (fInf 8 23 false) &&
          fle (fabs (fsub (fOne 8 23) (fInf 8 23 false)))
            (fmul (fmax (fabs (fOne 8 23)) (fabs (fInf 8 23 false)))
              (fZero 8 23 false))))) ∧
    ((isInfinite (fOne 8 23) || isInfinite (fInf 8 23 false)) = true →
      feq (fOne 8 23) (fInf 8 23 false) = false →
      relative_eq (fOne 8 23) (fInf 8 23 false) (fZero 8 23 false)
        (fZero 8 23 false) = false)) :=
  ⟨by norm_num,
    relative_eq_iff_spec (by norm_num) (fOne 8 23) (fInf 8 23 false)
      (fZero 8 23 false) (fZero 8 23 false)⟩

/-- C2: for every pair of f32/f64 operands, every `epsilon` and every
`max_ulps`, `ulps_eq` returns true iff (a) the absolute-difference
short-circuit holds, or (b) the operands carry the same sign (signed-zero
boundary counting as a sign difference, NaN carrying no sign) and the
unsigned distance between their bit patterns, larger minus smaller, is at
most `max_ulps`. -/
theorem ulps_eq_iff_spec {E M : ℕ} (hE : 2 ≤ E) (x y e : Fp E M) (n : ℕ) :
    ulps_eq x y e n =
      (abs_diff_eq x y e ||
        (sameSign x y &&
          decide (max (toBits x) (toBits y) - min (toBits x) (toBits y) ≤ n))) := by
  unfold ulps_eq
  cases habs : abs_diff_eq x y e with
  | true => simp
  | false =>
    simp only [Bool.false_eq_true, if_false, Bool.false_or]
    rw [feq_signum_eq_sameSign hE]
    cases hss : sameSign x y with
    | false => simp
    | true =>
      simp only [Bool.not_true, Bool.false_eq_true, if_false, Bool.true_and]
      by_cases h : toBits x ≤ toBits y
      · rw [if_pos h, max_eq_right h, min_eq_left h]
      · have h' : toBits y ≤ toBits x := le_of_not_le h
        rw [if_neg h, max_eq_left h', min_eq_right h']

/-- Witness for C2 at the f32 format, comparing `1.0` with `-1.0`. -/
theorem ulps_eq_iff_spec_witness :
    2 ≤ 8 ∧
    ulps_eq (fOne 8 23) (fNegOne 8 23) (fZero 8 23 false) 0 =
      (abs_diff_eq (fOne 8 23) (fNegOne 8 23) (fZero 8 23 false) ||
        (sameSign (fOne 8 23) (fNegOne 8 23) &&
          decide (max (toBits (fOne 8 23)) (toBits (fNegOne 8 23)) -
            min (toBits (fOne 8 23)) (toBits (fNegOne 8 23)) ≤ 0))) :=
  ⟨by norm_num,
    ulps_eq_iff_spec (by norm_num) (fOne 8 23) (fNegOne 8 23)
      (fZero 8 23 false) 0⟩

/-- Wrapping is the identity on integers already inside the
two's-complement range of a `w`-bit signed primitive. -/
theorem wrap_eq_self {w : ℕ} {x : ℤ} (hw : 1 ≤ w)
    (hlo : -(2 ^ (w - 1)) ≤ x) (hhi : x < 2 ^ (w - 1)) : wrap w x = x := by
  unfold wrap
  have hp : (2 : ℤ) ^ w = 2 ^ (w - 1) * 2 := by
    rw [← pow_succ]
    congr 1
    omega
  have h0 : (0 : ℤ) ≤ x + 2 ^ (w - 1) := by omega
  have h2 : x + 2 ^ (w - 1) < 2 ^ w := by omega
  rw [Int.emod_eq_of_lt h0 h2]
  omega

/-- C3 counterexample: on `i8`, `abs_diff_eq(100, -100, 60)` returns true
although the absolute numeric difference is `200 > 60` — the subtraction
`100 - (-100)` wraps to `-56`, whose absolute value `56` is within the
tolerance.  This refutes the claim that the comparison returns true iff
the absolute numeric difference is at most `epsilon`. -/
theorem signed_abs_diff_overflow_cex :
    signed_abs_diff_eq 8 100 (-100) 60 = true ∧
    ¬(((100 : ℤ) - (-100)).natAbs ≤ 60) := by
  constructor
  · decide
  · decide

/-- C3 (amended): `abs_diff_eq` compares the computed absolute difference
against the tolerance, where (1) for unsigned primitives the difference is
larger minus smaller and the result is exactly whether the absolute
numeric difference is at most `epsilon`; (2) for signed primitives the
difference is the two's-complement wrapping subtraction's wrapping
absolute value, which agrees with the absolute numeric difference whenever
`|a - b|` is representable (i.e. below `2 ^ (w - 1)`); (3) for floating
primitives the difference is the absolute value of the floating
subtraction. -/
theorem abs_diff_eq_amended :
    (∀ a b eps : ℕ, unsigned_abs_diff_eq a b eps
        = decide ((((a : ℤ) - b).natAbs : ℤ) ≤ eps)) ∧
    (∀ (w : ℕ) (a b eps : ℤ), 1 ≤ w → (((a - b).natAbs : ℤ) < 2 ^ (w - 1)) →
      signed_abs_diff_eq w a b eps = decide ((((a - b).natAbs : ℤ)) ≤ eps)) ∧
    (∀ (E M : ℕ) (x y e : Fp E M),
      Fp.abs_diff_eq x y e = fle (fabs (fsub x y)) e) := by
  refine ⟨?_, ?_, fun _ _ _ _ _ => rfl⟩
  · intro a b eps
    unfold unsigned_abs_diff_eq
    rw [decide_eq_decide]
    by_cases h : b < a
    · rw [if_pos h]
      omega
    · rw [if_neg h]
      omega
  · intro w a b eps hw hb
    unfold signed_abs_diff_eq wrappingAbs
    have hb' : |a - b| < 2 ^ (w - 1) := by
      rw [Int.abs_eq_natAbs]
      exact hb
    have h1 : wrap w (a - b) = a - b := by
      apply wrap_eq_self hw
      · rw [abs_lt] at hb'
        omega
      · rw [abs_lt] at hb'
        omega
    have h2 : wrap w |a - b| = |a - b| := by
      apply wrap_eq_self hw
      · have := abs_nonneg (a - b)
        omega
      · exact hb'
    rw [h1, h2, decide_eq_decide, Int.abs_eq_natAbs]

/-- Witness for C3's amended theorem: `i8` comparison of `100` and `90`
at tolerance `5`, where the difference is representable. -/
theorem abs_diff_eq_amended_witness :
    (1 ≤ 8 ∧ ((((100 : ℤ) - 90).natAbs : ℤ) < 2 ^ (8 - 1))) ∧
    signed_abs_diff_eq 8 100 90 5
      = decide ((((100 : ℤ) - 90).natAbs : ℤ) ≤ 5) :=
  ⟨⟨by norm_num, by norm_num⟩,
    abs_diff_eq_amended.2.1 8 100 90 5 (by norm_num) (by norm_num)⟩

/-- C4: a NaN operand makes every one of the three comparisons false, on
either side, for all tolerances — in particular NaN never compares equal
to itself. -/
theorem nan_never_approx_eq {E M : ℕ} (hM : 1 ≤ M) (x b e m : Fp E M)
    (n : ℕ) (hx : isNan x = true) :
    abs_diff_eq x b e = false ∧ abs_diff_eq b x e = false ∧
    relative_eq x b e m = false ∧ relative_eq b x e m = false ∧
    ulps_eq x b e n = false ∧ ulps_eq b x e n = false := by
  have habs1 : abs_diff_eq x b e = false := nan_abs_sub_not_le_left hM hx
  have habs2 : abs_diff_eq b x e = false := nan_abs_sub_not_le_right hM hx
  have hd1 : ∀ z : Fp E M, fle (fabs (fsub x b)) z = false :=
    fun z => nan_abs_sub_not_le_left hM hx
  have hd2 : ∀ z : Fp E M, fle (fabs (fsub b x)) z = false :=
    fun z => nan_abs_sub_not_le_right hM hx
  have hq1 : feq x b = false := by simp [feq, hx]
  have hq2 : feq b x = false := by simp [feq, hx]
  have hsx : signum x = x := by simp [signum, hx]
  have hs1 : feq (signum x) (signum b) = false := by
    rw [hsx]
    simp [feq, hx]
  have hs2 : feq (signum b) (signum x) = false := by
    rw [hsx]
    simp [feq, hx]
  refine ⟨habs1, habs2, ?_, ?_, ?_, ?_⟩
  · simp [relative_eq, hq1, hd1]
  · simp [relative_eq, hq2, hd2]
  · simp [ulps_eq, habs1, hs1]
  · simp [ulps_eq, habs2, hs2]

/-- Witness for C4 at the f32 format: the quiet NaN against `1.0`. -/
theorem nan_never_approx_eq_witness :
    (1 ≤ 23 ∧ isNan (qNaN 8 23) = true) ∧
    (abs_diff_eq (qNaN 8 23) (fOne 8 23) (fZero 8 23 false) = false ∧
      abs_diff_eq (fOne 8 23) (qNaN 8 23) (fZero 8 23 false) = false ∧
      relative_eq (qNaN 8 23) (fOne 8 23) (fZero 8 23 false)
        (fZero 8 23 false) = false ∧
      relative_eq (fOne 8 23) (qNaN 8 23) (fZero 8 23 false)
        (fZero 8 23 false) = false ∧
      ulps_eq (qNaN 8 23) (fOne 8 23) (fZero 8 23 false) 4 = false ∧
      ulps_eq (fOne 8 23) (qNaN 8 23) (fZero 8 23 false) 4 = false) :=
  ⟨⟨by norm_num, by decide⟩,
    nan_never_approx_eq (by norm_num) (qNaN 8 23) (fOne 8 23)
      (fZero 8 23 false) (fZero 8 23 false) 4 (by decide)⟩

namespace Fp

variable {E M : ℕ}

theorem isNan_fZero (s : Bool) : isNan (fZero E M s) = false := by
  simp [isNan, fZero]

theorem isInfinite_fZero (hE : 1 ≤ E) (s : Bool) :
    isInfinite (fZero E M s) = false := by
  have h2 : 2 ≤ 2 ^ E := by
    calc (2 : ℕ) = 2 ^ 1 := rfl
    _ ≤ 2 ^ E := Nat.pow_le_pow_right (by omega) hE
  have h : ¬((0 : ℕ) = 2 ^ E - 1) := by omega
  simp [isInfinite, fZero, h]

theorem valQ_fZero (s : Bool) : valQ (fZero E M s) = 0 := by
  simp [valQ, fZero]

theorem fle_fZero_fZero (hE : 1 ≤ E) :
    fle (fZero E M false) (fZero E M false) = true := by
  simp [fle, isNan_fZero, isInfinite_fZero hE, valQ_fZero]

theorem fsub_fZero_fZero (hE : 1 ≤ E) :
    fsub (fZero E M false) (fZero E M true) = fZero E M false := by
  unfold fsub
  simp only [isNan_fZero, isInfinite_fZero hE, Bool.or_self, Bool.false_and,
    Bool.false_eq_true, if_false, valQ_fZero, sub_self, if_pos]
  rfl

theorem largest_fmul_comm {x y m : Fp E M} (hnx : isNan x = false)
    (hny : isNan y = false) (hix : isInfinite x = false)
    (hiy : isInfinite y = false) :
    fmul (if flt (fabs x) (fabs y) then fabs y else fabs x) m
      = fmul (if flt (fabs y) (fabs x) then fabs x else fabs y) m := by
  rw [largest_fmul_eq hnx hny hix hiy, largest_fmul_eq hny hnx hiy hix]
  have h2 : fle (fabs x) (fabs y) = decide (valQ (fabs x) ≤ valQ (fabs y)) := by
    simp only [fle, isNan_fabs, isInfinite_fabs, hnx, hny, hix, hiy,
      Bool.or_self, Bool.false_eq_true, if_false]
  have h2' : fle (fabs y) (fabs x) = decide (valQ (fabs y) ≤ valQ (fabs x)) := by
    simp only [fle, isNan_fabs, isInfinite_fabs, hnx, hny, hix, hiy,
      Bool.or_self, Bool.false_eq_true, if_false]
  unfold fmax
  rw [h2, h2']
  rcases lt_trichotomy (valQ (fabs x)) (valQ (fabs y)) with hv | hv | hv
  · rw [decide_eq_true (le_of_lt hv), decide_eq_false (not_le.mpr hv)]
    simp
  · rw [decide_eq_true (le_of_eq hv), decide_eq_true (le_of_eq hv.symm)]
    simp only [if_true]
    exact fmul_congr_left (by rw [isNan_fabs]; exact hny)
      (by rw [isNan_fabs]; exact hnx)
      (by rw [isInfinite_fabs]; exact hiy)
      (by rw [isInfinite_fabs]; exact hix) rfl hv.symm
  · rw [decide_eq_false (not_le.mpr hv), decide_eq_true (le_of_lt hv)]
    simp

end Fp

/-- C5: `0.0` and `-0.0` compare equal at tolerance 0 under all three
strategies; in particular `ulps_eq` succeeds for every `max_ulps` because
the absolute-tolerance short-circuit fires before the sign check. -/
theorem zero_neg_zero_all_eq {E M : ℕ} (hE : 1 ≤ E) :
    abs_diff_eq (fZero E M false) (fZero E M true) (fZero E M false) = true ∧
    relative_eq (fZero E M false) (fZero E M true) (fZero E M false)
      (fZero E M false) = true ∧
    ∀ n : ℕ,
      ulps_eq (fZero E M false) (fZero E M true) (fZero E M false) n = true := by
  have habs : abs_diff_eq (fZero E M false) (fZero E M true)
      (fZero E M false) = true := by
    unfold abs_diff_eq
    rw [fsub_fZero_fZero hE]
    exact fle_fZero_fZero hE
  have hfeq : feq (fZero E M false) (fZero E M true) = true := by
    simp [feq, isNan_fZero, isInfinite_fZero hE, valQ_fZero]
  refine ⟨habs, ?_, ?_⟩
  · simp [relative_eq, hfeq]
  · intro n
    simp [ulps_eq, habs]

/-- Witness for C5 at the f32 format. -/
theorem zero_neg_zero_all_eq_witness :
    1 ≤ 8 ∧
    (abs_diff_eq (fZero 8 23 false) (fZero 8 23 true) (fZero 8 23 false)
        = true ∧
      relative_eq (fZero 8 23 false) (fZero 8 23 true) (fZero 8 23 false)
        (fZero 8 23 false) = true ∧
      ∀ n : ℕ,
        ulps_eq (fZero 8 23 false) (fZero 8 23 true) (fZero 8 23 false) n
          = true) :=
  ⟨by norm_num, zero_neg_zero_all_eq (by norm_num)⟩

/-- C6: the relative comparison is commutative in its two operands for all
finite operands and all tolerances. -/
theorem relative_eq_comm {E M : ℕ} (x y e m : Fp E M)
    (hx : isFinite x = true) (hy : isFinite y = true) :
    relative_eq x y e m = relative_eq y x e m := by
  have hnx := not_nan_of_isFinite hx
  have hny := not_nan_of_isFinite hy
  have hix := not_inf_of_isFinite hx
  have hiy := not_inf_of_isFinite hy
  have hq : feq x y = feq y x := by
    simp [feq, hnx, hny, hix, hiy, eq_comm]
  have hd := fabs_fsub_comm hnx hny hix hiy
  unfold relative_eq
  rw [hq, hd, Bool.or_comm (isInfinite x), largest_fmul_comm hnx hny hix hiy]

/-- Witness for C6 at the f32 format, comparing `1.0` and `-1.0`. -/
theorem relative_eq_comm_witness :
    (isFinite (fOne 8 23) = true ∧ isFinite (fNegOne 8 23) = true) ∧
    relative_eq (fOne 8 23) (fNegOne 8 23) (fZero 8 23 false)
        (fZero 8 23 false)
      = relative_eq (fNegOne 8 23) (fOne 8 23) (fZero 8 23 false)
        (fZero 8 23 false) :=
  ⟨⟨by decide, by decide⟩,
    relative_eq_comm (fOne 8 23) (fNegOne 8 23) (fZero 8 23 false)
      (fZero 8 23 false) (by decide) (by decide)⟩

/-- C7: the absolute-difference comparison is reflexive on finite values
for every non-negative tolerance. -/
theorem abs_diff_eq_refl {E M : ℕ} (a t : Fp E M) (ha : isFinite a = true)
    (ht : fle (fZero E M false) t = true) : abs_diff_eq a a t = true := by
  unfold abs_diff_eq
  rw [fsub_self_of_finite ha]
  exact ht

/-- Witness for C7 at the f32 format: `1.0` against itself at tolerance
`+0.0`. -/
theorem abs_diff_eq_refl_witness :
    (isFinite (fOne 8 23) = true ∧
      fle (fZero 8 23 false) (fZero 8 23 false) = true) ∧
    abs_diff_eq (fOne 8 23) (fOne 8 23) (fZero 8 23 false) = true :=
  ⟨⟨by decide, fle_fZero_fZero (by norm_num)⟩,
    abs_diff_eq_refl (fOne 8 23) (fZero 8 23 false) (by decide)
      (fle_fZero_fZero (by norm_num))⟩

/-- Key lookup is stable under permuting an association list whose keys
are distinct. -/
theorem lookupKey_congr_perm {K V : Type} [DecidableEq K]
    {l1 l2 : List (K × V)} (h : l1.Perm l2) (k : K) :
    (l1.map Prod.fst).Nodup → lookupKey k l1 = lookupKey k l2 := by
  induction h with
  | nil => intro; rfl
  | cons p h ih =>
    intro hnd
    simp only [lookupKey]
    by_cases hp : p.1 = k
    · rw [if_pos hp, if_pos hp]
    · rw [if_neg hp, if_neg hp]
      exact ih (by simp only [List.map_cons, List.nodup_cons] at hnd; exact hnd.2)
  | swap p q l =>
    intro hnd
    have hpq : q.1 ≠ p.1 := by
      simp only [List.map_cons, List.nodup_cons, List.mem_cons] at hnd
      exact fun hc => hnd.1 (Or.inl hc)
    simp only [lookupKey]
    by_cases h1 : p.1 = k <;> by_cases h2 : q.1 = k
    · exact absurd (h2.trans h1.symm) hpq
    · simp [h1, h2]
    · simp [h1, h2]
    · simp [h1, h2]
  | trans h1 h2 ih1 ih2 =>
    intro hnd
    rw [ih1 hnd, ih2 (((h1.map Prod.fst).nodup_iff).mp hnd)]

/-- `List.all` is stable under permutation. -/
theorem all_congr_perm {α : Type} {l1 l2 : List α} (h : l1.Perm l2)
    (f : α → Bool) : l1.all f = l2.all f := by
  rw [Bool.eq_iff_iff, List.all_eq_true, List.all_eq_true]
  exact ⟨fun H x hx => H x (h.mem_iff.mpr hx),
    fun H x hx => H x (h.mem_iff.mp hx)⟩

/-- C8: the map comparison returns true iff the two maps have equal
cardinality and every key of the left-hand map is present in the
right-hand map with an element-wise equal value; keys present only in the
right-hand map are not separately checked, and — given the map invariant
that keys are distinct — insertion order of either map never affects the
result. -/
theorem indexmap_relative_eq_spec {K V ε : Type} [DecidableEq K]
    (rel : V → V → ε → ε → Bool) (e mr : ε) (m1 m2 : List (K × V)) :
    (relative_eq_map rel e mr m1 m2 = true ↔
      (m1.length = m2.length ∧
        ∀ p ∈ m1, ∃ v, lookupKey p.1 m2 = some v ∧ rel p.2 v e mr = true)) ∧
    (∀ m1' m2' : List (K × V), m1.Perm m1' → m2.Perm m2' →
      (m2.map Prod.fst).Nodup →
      relative_eq_map rel e mr m1 m2 = relative_eq_map rel e mr m1' m2') := by
  constructor
  · have helt : ∀ p : K × V,
        ((Option.map (fun v => rel p.2 v e mr) (lookupKey p.1 m2)).getD false
            = true)
          ↔ (∃ v, lookupKey p.1 m2 = some v ∧ rel p.2 v e mr = true) := by
      intro p
      cases h : lookupKey p.1 m2 <;> simp [h]
    unfold relative_eq_map
    rw [Bool.and_eq_true, beq_iff_eq, List.all_eq_true]
    constructor
    · rintro ⟨hl, hall⟩
      exact ⟨hl, fun p hp => (helt p).mp (hall p hp)⟩
    · rintro ⟨hl, hall⟩
      exact ⟨hl, fun p hp => (helt p).mpr (hall p hp)⟩
  · intro m1' m2' h1 h2 hnd
    unfold relative_eq_map
    rw [h1.length_eq, h2.length_eq, all_congr_perm h1]
    have hfun : (fun p : K × V =>
        (Option.map (fun v => rel p.2 v e mr) (lookupKey p.1 m2)).getD false)
        = (fun p : K × V =>
        (Option.map (fun v => rel p.2 v e mr) (lookupKey p.1 m2')).getD false) := by
      funext p
      rw [lookupKey_congr_perm h2 p.1 hnd]
    rw [hfun]

/-- Witness for C8: two-entry maps over natural-number keys and f32
values, with the right-hand map's insertion order swapped. -/
theorem indexmap_relative_eq_spec_witness :
    ((((1, fOne 8 23) :: (2, fZero 8 23 false) :: []).Perm
        ((1, fOne 8 23) :: (2, fZero 8 23 false) :: [])) ∧
      (((2, fZero 8 23 false) :: (1, fOne 8 23) :: []).Perm
        ((1, fOne 8 23) :: (2, fZero 8 23 false) :: [])) ∧
      ((((2, fZero 8 23 false) :: (1, fOne 8 23) :: []).map
          Prod.fst).Nodup)) ∧
    relative_eq_map relative_eq (fZero 8 23 false) (fZero 8 23 false)
        ((1, fOne 8 23) :: (2, fZero 8 23 false) :: [])
        ((2, fZero 8 23 false) :: (1, fOne 8 23) :: [])
      = relative_eq_map relative_eq (fZero 8 23 false) (fZero 8 23 false)
        ((1, fOne 8 23) :: (2, fZero 8 23 false) :: [])
        ((1, fOne 8 23) :: (2, fZero 8 23 false) :: []) :=
  ⟨⟨List.Perm.refl _, List.Perm.swap (1, fOne 8 23) (2, fZero 8 23 false) [],
      by decide⟩,
    (indexmap_relative_eq_spec relative_eq (fZero 8 23 false)
        (fZero 8 23 false) ((1, fOne 8 23) :: (2, fZero 8 23 false) :: [])
        ((2, fZero 8 23 false) :: (1, fOne 8 23) :: [])).2
      ((1, fOne 8 23) :: (2, fZero 8 23 false) :: [])
      ((1, fOne 8 23) :: (2, fZero 8 23 false) :: [])
      (List.Perm.refl _)
      (List.Perm.swap (1, fOne 8 23) (2, fZero 8 23 false) [])
      (by decide)⟩

/-- C9: each builder method on the `Relative` and `Ulps` parameter objects
overrides exactly its own field and leaves the other field unchanged,
returning a new configuration value. -/
theorem param_object_setters_frame {ε : Type} (r : Relative ε) (u : Ulps ε)
    (e m : ε) (n : ℕ) :
    (r.setEpsilon e).epsilon = e ∧
    (r.setEpsilon e).max_relative = r.max_relative ∧
    (r.setMaxRelative m).max_relative = m ∧
    (r.setMaxRelative m).epsilon = r.epsilon ∧
    (u.setEpsilon e).epsilon = e ∧
    (u.setEpsilon e).max_ulps = u.max_ulps ∧
    (u.setMaxUlps n).max_ulps = n ∧
    (u.setMaxUlps n).epsilon = u.epsilon :=
  ⟨rfl, rfl, rfl, rfl, rfl, rfl, rfl, rfl⟩

/-- C10: `abs_diff_eq(∞, ∞)` is false for both infinities (the subtraction
yields NaN), while `relative_eq(∞, ∞)` is true via the identity check. -/
theorem inf_abs_diff_vs_relative {E M : ℕ} (hM : 1 ≤ M) (s : Bool)
    (e m : Fp E M) :
    abs_diff_eq (fInf E M s) (fInf E M s) e = false ∧
    relative_eq (fInf E M s) (fInf E M s) e m = true := by
  have hn : isNan (fInf E M s) = false := by simp [isNan, fInf]
  have hi : isInfinite (fInf E M s) = true := by simp [isInfinite, fInf]
  have hsub : fsub (fInf E M s) (fInf E M s) = qNaN E M := by
    simp [fsub, hn, hi]
  constructor
  · unfold abs_diff_eq
    rw [hsub]
    exact fle_eq_false_of_nan_left (by rw [isNan_fabs]; exact isNan_qNaN hM)
  · have hfeq : feq (fInf E M s) (fInf E M s) = true := by
      simp [feq, hn, hi]
    simp [relative_eq, hfeq]

/-- Witness for C10 at the f32 format with the positive infinity. -/
theorem inf_abs_diff_vs_relative_witness :
    1 ≤ 23 ∧
    (abs_diff_eq (fInf 8 23 false) (fInf 8 23 false) (fZero 8 23 false)
        = false ∧
      relative_eq (fInf 8 23 false) (fInf 8 23 false) (fZero 8 23 false)
        (fZero 8 23 false) = true) :=
  ⟨by norm_num,
    inf_abs_diff_vs_relative (by norm_num) false (fZero 8 23 false)
      (fZero 8 23 false)⟩
